import Mathlib

/-
  Verification development for the trade-summary brokerage engine
  (src/src/app/trade-system.tsx).

  Modelling conventions:
  * JavaScript numbers are modelled as exact rationals (ℚ).
  * A numeric string field of a trade (`Qty`, `Vol`) is modelled as
    `Option ℚ`: `none` stands for a missing or unparseable string
    (where `parseFloat` yields `NaN`), `some x` for a string parsing
    to the number `x`.  The idiom `parseFloat(s) || 0` is `parseNum`.
  * The JS object used as the lot-based schedule (`mcxMap`) is modelled
    as a function `String → Option McxScript`; it is built from the
    settings list exactly as the `useMemo` in the source builds it
    (later entries overwrite earlier ones).
  * `Object.values(groups)` in `buildReport` follows ECMAScript's
    own-property enumeration order: array-index-like keys (canonical
    base-10 integer strings below 2^32 − 1) first, in ascending numeric
    order, then the remaining string keys in property creation order.
    `objectValues` reproduces this on the association list that records
    the object's property creation order.
  * The source file contains two versions of the engine separated by a
    document separator; `calcBrokerage` embeds the first definition
    (lines 39–53) and `calcBrokerage2` the second (lines 608–626).
-/

namespace TradeSummary

/-- An entry of the lot-based (MCX) schedule: `{ script, lotQty, rate }`. -/
structure McxScript where
  script : String
  lotQty : ℚ
  rate : ℚ
deriving DecidableEq, Repr

/-- A trade record, restricted to the fields the engine reads.
`Type'` models the `Type` field (`"NORMAL"` or `"FORWARD"`),
`Qty` and `Vol` the numeric string fields (see module header). -/
structure Trade where
  Action : String
  Qty : Option ℚ
  Vol : Option ℚ
  Script : String
  Type' : String
  Exchange : String
deriving DecidableEq, Repr

/-- Models `parseFloat(s) || 0`: a missing or unparseable value is 0. -/
def parseNum (x : Option ℚ) : ℚ := x.getD 0

/-- Models `s.toUpperCase()` on JavaScript strings (ASCII case mapping). -/
def upperStr (s : String) : String := String.mk (s.data.map Char.toUpper)

/-- The lot size used by the first `calcBrokerage`:
`const { lotQty = 1, rate = 40 } = mcxSettings || {}` (default 1). -/
def lotQtyOf : Option McxScript → ℚ
  | some s => s.lotQty
  | none => 1

/-- The rate-per-lot used by the first `calcBrokerage` (default 40). -/
def rateOf : Option McxScript → ℚ
  | some s => s.rate
  | none => 40

/-- First definition of `calcBrokerage` (source lines 39–53):
FORWARD trades yield 0; lot-based pricing is selected when a schedule
entry exists for the uppercased symbol OR the exchange is `"MCX"`,
with defaults lot size 1 and rate 40 when no entry exists; otherwise
flat-rate pricing `vol * (nseRate / 10_000_000)`. -/
def calcBrokerage (trade : Trade) (nseRate : ℚ)
    (mcxMap : String → Option McxScript) : ℚ :=
  if trade.Type' = "FORWARD" then 0
  else
    let vol := parseNum trade.Vol
    let qty := parseNum trade.Qty
    let scriptKey := upperStr trade.Script
    let mcxSettings := mcxMap scriptKey
    if mcxSettings.isSome ∨ trade.Exchange = "MCX" then
      (qty / lotQtyOf mcxSettings) * rateOf mcxSettings
    else
      vol * (nseRate / 10000000)

/-- Second definition of `calcBrokerage` (source lines 608–626):
lot-based pricing only when the exchange is `"MCX"` AND a schedule
entry exists (`if (trade.Exchange === "MCX" && mcxSettings)`). -/
def calcBrokerage2 (trade : Trade) (nseRate : ℚ)
    (mcxMap : String → Option McxScript) : ℚ :=
  if trade.Type' = "FORWARD" then 0
  else
    let vol := parseNum trade.Vol
    let qty := parseNum trade.Qty
    let scriptKey := upperStr trade.Script
    match mcxMap scriptKey with
    | some s =>
        if trade.Exchange = "MCX" then (qty / s.lotQty) * s.rate
        else vol * (nseRate / 10000000)
    | none => vol * (nseRate / 10000000)

/-- Builds the `mcxMap` object from the settings list, as the source's
`useMemo` does: `mcxScripts.forEach((s) => { m[s.script.toUpperCase()] = s })`
— later entries overwrite earlier ones. -/
def buildMcxMap (scripts : List McxScript) : String → Option McxScript :=
  scripts.foldl
    (fun m s => fun k => if k = upperStr s.script then some s else m k)
    (fun _ => none)

/-- A report group before the aggregation pass (first loop of `buildReport`). -/
structure RawGroup where
  script : String
  exchange : String
  buys : List Trade
  sells : List Trade
deriving DecidableEq, Repr

/-- The grouping key: `t.Script.toUpperCase() || "UNKNOWN"`. -/
def groupKey (t : Trade) : String :=
  if upperStr t.Script = "" then "UNKNOWN" else upperStr t.Script

/-- One step of the first loop of `buildReport` on an existing group:
append the trade to its buy or sell list and overwrite the exchange. -/
def updateGroup (g : RawGroup) (t : Trade) : RawGroup :=
  let g' :=
    if t.Action = "BUY" then { g with buys := g.buys ++ [t] }
    else { g with sells := g.sells ++ [t] }
  { g' with exchange := t.Exchange }

/-- The fresh group created on first sight of a key:
`{ script: key, exchange: t.Exchange, buys: [], sells: [] }`. -/
def newGroup (key : String) (t : Trade) : RawGroup :=
  { script := key, exchange := t.Exchange, buys := [], sells := [] }

/-- Inserts a trade into the association list of groups: updates the
existing group in place or appends a fresh one at the end.  The list
records the `groups` object's property creation order; the enumeration
order of `Object.values` is applied on top by `objectValues`. -/
def addToGroups : List (String × RawGroup) → String → Trade → List (String × RawGroup)
  | [], key, t => [(key, updateGroup (newGroup key t) t)]
  | (k, g) :: rest, key, t =>
      if k = key then (k, updateGroup g t) :: rest
      else (k, g) :: addToGroups rest key t

/-- The first loop of `buildReport`: group the trades by `groupKey`. -/
def buildGroups (trades : List Trade) : List (String × RawGroup) :=
  trades.foldl (fun gs t => addToGroups gs (groupKey t) t) []

/-- A finished report group (the record returned by `buildReport`). -/
structure ReportGroup where
  script : String
  exchange : String
  buys : List Trade
  sells : List Trade
  buyVol : ℚ
  sellVol : ℚ
  buyBrk : ℚ
  sellBrk : ℚ
  totalBrk : ℚ
  gross : ℚ
  net : ℚ
deriving DecidableEq, Repr

/-- The aggregation pass of `buildReport` on one group. -/
def finishGroup (nseRate : ℚ) (mcxMap : String → Option McxScript)
    (g : RawGroup) : ReportGroup :=
  let buyVol := g.buys.foldl (fun s t => s + parseNum t.Vol) 0
  let sellVol := g.sells.foldl (fun s t => s + parseNum t.Vol) 0
  let buyBrk := g.buys.foldl (fun s t => s + calcBrokerage t nseRate mcxMap) 0
  let sellBrk := g.sells.foldl (fun s t => s + calcBrokerage t nseRate mcxMap) 0
  let totalBrk := buyBrk + sellBrk
  let gross := sellVol - buyVol
  let net := gross - totalBrk
  { script := g.script, exchange := g.exchange, buys := g.buys, sells := g.sells,
    buyVol := buyVol, sellVol := sellVol, buyBrk := buyBrk, sellBrk := sellBrk,
    totalBrk := totalBrk, gross := gross, net := net }

/-- The numeric value of a digit string (for array-index ordering). -/
def strToNat (s : String) : Nat :=
  s.data.foldl (fun n c => n * 10 + (c.toNat - 48)) 0

/-- Whether a key is an ECMAScript array index: a canonical base-10
integer string (digits only, no leading zero except `"0"` itself)
whose numeric value is below 2^32 − 1.  `Object.values` enumerates
such keys first, in ascending numeric order. -/
def isArrayIndexKey (s : String) : Bool :=
  !s.data.isEmpty && s.data.all (fun c => c.isDigit)
    && (s.data.head? != some '0' || s == "0")
    && decide (strToNat s < 4294967295)

/-- Insertion into a list sorted by ascending numeric key value. -/
def insertByIdx (p : String × RawGroup) :
    List (String × RawGroup) → List (String × RawGroup)
  | [] => [p]
  | q :: rest =>
      if strToNat p.1 ≤ strToNat q.1 then p :: q :: rest
      else q :: insertByIdx p rest

/-- Insertion sort of an association list by ascending numeric key. -/
def sortNumeric : List (String × RawGroup) → List (String × RawGroup)
  | [] => []
  | p :: rest => insertByIdx p (sortNumeric rest)

/-- Models `Object.values(groups)`: array-index-like keys first, in
ascending numeric order, then the remaining keys in creation order. -/
def objectValues (gs : List (String × RawGroup)) : List RawGroup :=
  (sortNumeric (gs.filter (fun p => isArrayIndexKey p.1))).map Prod.snd
    ++ (gs.filter (fun p => !isArrayIndexKey p.1)).map Prod.snd

/-- `buildReport` (source lines 56–76): group, enumerate the groups
object in `Object.values` order, then aggregate. -/
def buildReport (trades : List Trade) (nseRate : ℚ)
    (mcxMap : String → Option McxScript) : List ReportGroup :=
  (objectValues (buildGroups trades)).map (fun g => finishGroup nseRate mcxMap g)

/-- Grand total `report.reduce((s, r) => s + r.gross, 0)` from the report view. -/
def totalGross (report : List ReportGroup) : ℚ :=
  report.foldl (fun s r => s + r.gross) 0

/-- Grand total `report.reduce((s, r) => s + r.totalBrk, 0)`. -/
def totalBrk (report : List ReportGroup) : ℚ :=
  report.foldl (fun s r => s + r.totalBrk) 0

/-- Grand total `report.reduce((s, r) => s + r.net, 0)`. -/
def totalNet (report : List ReportGroup) : ℚ :=
  report.foldl (fun s r => s + r.net) 0

/-- Spec-side description of the report order: the group keys in
first-seen order among the input trades. -/
def firstSeenKeys (trades : List Trade) : List String :=
  trades.foldl (fun acc t => if groupKey t ∈ acc then acc else acc ++ [groupKey t]) []

/-- The empty lot schedule (no configured scripts). -/
def mEmpty : String → Option McxScript := fun _ => none

/-- A concrete MCX trade with quantity 10 and no schedule entry for its symbol. -/
def tMcx10 : Trade :=
  { Action := "BUY", Qty := some 10, Vol := some 500000, Script := "X",
    Type' := "NORMAL", Exchange := "MCX" }

/-- A concrete NSE trade with volume 500000. -/
def tNse : Trade :=
  { Action := "BUY", Qty := none, Vol := some 500000, Script := "PFC",
    Type' := "NORMAL", Exchange := "NSE" }

/-- A concrete FORWARD trade. -/
def tFwd : Trade :=
  { Action := "SELL", Qty := some 10, Vol := some 500000, Script := "GOLD",
    Type' := "FORWARD", Exchange := "MCX" }

/-- The `GOLD` schedule entry used in concrete instantiations. -/
def sGold : McxScript := { script := "GOLD", lotQty := 1, rate := 30 }

/-- The brokerage of a non-FORWARD trade as one conditional expression. -/
theorem calcBrokerage_eq_ite (t : Trade) (r : ℚ) (m : String → Option McxScript)
    (hF : t.Type' ≠ "FORWARD") :
    calcBrokerage t r m =
      if (m (upperStr t.Script)).isSome ∨ t.Exchange = "MCX" then
        (parseNum t.Qty / lotQtyOf (m (upperStr t.Script))) *
          rateOf (m (upperStr t.Script))
      else parseNum t.Vol * (r / 10000000) := by
  simp only [calcBrokerage, if_neg hF]

/-- C1. For every non-FORWARD trade, the first `calcBrokerage` selects
lot-based pricing `(quantity / lot size) * rate-per-lot` exactly when a
schedule entry exists for the uppercased symbol or the exchange is
`"MCX"` (flat-rate pricing otherwise), and when the exchange forces
lot-based pricing with no schedule entry the defaults lot size 1 and
rate 40 apply, so the brokerage is `quantity * 40`. -/
theorem calcBrokerage_lot_selection (t : Trade) (r : ℚ)
    (m : String → Option McxScript) (hF : t.Type' ≠ "FORWARD") :
    ((m (upperStr t.Script)).isSome ∨ t.Exchange = "MCX" →
      calcBrokerage t r m =
        (parseNum t.Qty / lotQtyOf (m (upperStr t.Script))) *
          rateOf (m (upperStr t.Script)))
    ∧ (¬((m (upperStr t.Script)).isSome ∨ t.Exchange = "MCX") →
      calcBrokerage t r m = parseNum t.Vol * (r / 10000000))
    ∧ (m (upperStr t.Script) = none → t.Exchange = "MCX" →
      calcBrokerage t r m = parseNum t.Qty * 40) := by
  rw [calcBrokerage_eq_ite t r m hF]
  refine ⟨fun h => if_pos h, fun h => if_neg h, fun h1 h2 => ?_⟩
  rw [if_pos (Or.inr h2), h1]
  simp [lotQtyOf, rateOf]

/-- Witness for C1: an MCX trade with quantity 10 and no schedule entry
is priced with the defaults, giving brokerage 400. -/
theorem calcBrokerage_lot_selection_witness :
    tMcx10.Type' ≠ "FORWARD" ∧ calcBrokerage tMcx10 3000 mEmpty = 400 := by
  refine ⟨by decide, ?_⟩
  have h := calcBrokerage_lot_selection tMcx10 3000 mEmpty (by decide)
  rw [h.2.2 rfl rfl]
  norm_num [tMcx10, parseNum]

/-- C3. A FORWARD trade yields brokerage exactly 0, in both definitions
of `calcBrokerage`, regardless of every other field and of the rate
configuration. -/
theorem calcBrokerage_forward_zero (t : Trade) (r : ℚ)
    (m : String → Option McxScript) (h : t.Type' = "FORWARD") :
    calcBrokerage t r m = 0 ∧ calcBrokerage2 t r m = 0 := by
  constructor <;> simp [calcBrokerage, calcBrokerage2, h]

/-- Witness for C3: a concrete FORWARD trade with nonzero quantity,
volume, an MCX exchange flag and a matching schedule entry still has
brokerage 0 under both definitions. -/
theorem calcBrokerage_forward_zero_witness :
    calcBrokerage tFwd 3000 (buildMcxMap [sGold]) = 0 ∧
      calcBrokerage2 tFwd 3000 (buildMcxMap [sGold]) = 0 :=
  calcBrokerage_forward_zero tFwd 3000 (buildMcxMap [sGold]) rfl

/-- C4. A non-FORWARD trade not selected for lot-based pricing is priced
flat: `volume * (flatRate / 10^7)`. -/
theorem calcBrokerage_flat (t : Trade) (r : ℚ) (m : String → Option McxScript)
    (hF : t.Type' ≠ "FORWARD")
    (hNot : ¬((m (upperStr t.Script)).isSome ∨ t.Exchange = "MCX")) :
    calcBrokerage t r m = parseNum t.Vol * (r / 10000000) := by
  rw [calcBrokerage_eq_ite t r m hF, if_neg hNot]

/-- Witness for C4: volume 500000 at flat rate 3000 gives brokerage 150. -/
theorem calcBrokerage_flat_witness :
    calcBrokerage tNse 3000 mEmpty = 150 :=
  (calcBrokerage_flat tNse 3000 mEmpty (by decide) (by decide)).trans
    (by norm_num [tNse, parseNum])

/-- A lower-case variant of the GOLD symbol on an MCX trade. -/
def tGold : Trade :=
  { Action := "BUY", Qty := some 2, Vol := some 100, Script := "gold",
    Type' := "NORMAL", Exchange := "MCX" }

/-- Any value the built schedule map returns comes from the settings list. -/
theorem buildMcxMap_mem_aux (scripts : List McxScript)
    (m0 : String → Option McxScript) (k : String) (s : McxScript)
    (h : (scripts.foldl
        (fun m s => fun k => if k = upperStr s.script then some s else m k)
        m0) k = some s) :
    s ∈ scripts ∨ m0 k = some s := by
  induction scripts generalizing m0 with
  | nil => exact Or.inr h
  | cons a l ih =>
    rcases ih _ h with h1 | h2
    · exact Or.inl (List.mem_cons_of_mem a h1)
    · beta_reduce at h2
      by_cases hk : k = upperStr a.script
      · left
        rw [if_pos hk] at h2
        have := Option.some.inj h2
        subst this
        exact List.mem_cons_self a l
      · right
        rwa [if_neg hk] at h2

/-- A successful lookup in `buildMcxMap scripts` yields an entry of `scripts`. -/
theorem buildMcxMap_mem (scripts : List McxScript) (k : String) (s : McxScript)
    (h : buildMcxMap scripts k = some s) : s ∈ scripts := by
  rcases buildMcxMap_mem_aux scripts (fun _ => none) k s h with h1 | h2
  · exact h1
  · simp at h2

/-- Counterexample for C2 as stated: with a negative flat rate the
brokerage is negative (volume 500000 at flat rate −3000 gives −150). -/
theorem calcBrokerage_negative_counterexample :
    calcBrokerage tNse (-3000) mEmpty < 0 := by
  norm_num +decide [calcBrokerage, tNse, mEmpty, parseNum, upperStr]

/-- C2 (amended). When the parsed quantity and volume are nonnegative,
the flat rate is nonnegative, and every schedule entry has positive lot
size and nonnegative rate, `calcBrokerage` is nonnegative. -/
theorem calcBrokerage_nonneg (t : Trade) (r : ℚ) (scripts : List McxScript)
    (hq : 0 ≤ parseNum t.Qty) (hv : 0 ≤ parseNum t.Vol) (hr : 0 ≤ r)
    (hs : ∀ s ∈ scripts, 0 < s.lotQty ∧ 0 ≤ s.rate) :
    0 ≤ calcBrokerage t r (buildMcxMap scripts) := by
  by_cases hF : t.Type' = "FORWARD"
  · simp [calcBrokerage, hF]
  · rw [calcBrokerage_eq_ite t r _ hF]
    split
    · rcases hm : buildMcxMap scripts (upperStr t.Script) with _ | s
      · simp only [lotQtyOf, rateOf]
        exact mul_nonneg (div_nonneg hq (by norm_num)) (by norm_num)
      · obtain ⟨hl, hrr⟩ := hs s (buildMcxMap_mem scripts _ s hm)
        exact mul_nonneg (div_nonneg hq hl.le) hrr
    · exact mul_nonneg hv (div_nonneg hr (by norm_num))

/-- Witness for C2 (amended): a concrete nonnegative configuration. -/
theorem calcBrokerage_nonneg_witness :
    0 ≤ calcBrokerage tNse 3000 (buildMcxMap [sGold]) :=
  calcBrokerage_nonneg tNse 3000 [sGold]
    (by norm_num [tNse, parseNum]) (by norm_num [tNse, parseNum]) (by norm_num)
    (by
      intro s hs
      rw [List.mem_singleton] at hs
      subst hs
      exact ⟨by norm_num [sGold], by norm_num [sGold]⟩)

/-- C7. Symbol matching against the lot schedule is case-insensitive:
the map stores each entry under its uppercased script and the lookup
key is the trade's uppercased symbol, so whenever the two agree up to
case the (last-registered) entry is found and its lot-based price is
charged. -/
theorem calcBrokerage_case_insensitive (t : Trade) (r : ℚ)
    (scripts : List McxScript) (s : McxScript)
    (hcase : upperStr t.Script = upperStr s.script) (hF : t.Type' ≠ "FORWARD") :
    buildMcxMap (scripts ++ [s]) (upperStr t.Script) = some s
    ∧ calcBrokerage t r (buildMcxMap (scripts ++ [s])) =
        (parseNum t.Qty / s.lotQty) * s.rate := by
  have hm : buildMcxMap (scripts ++ [s]) (upperStr t.Script) = some s := by
    simp only [buildMcxMap, List.foldl_append, List.foldl_cons, List.foldl_nil]
    rw [if_pos hcase]
  refine ⟨hm, ?_⟩
  rw [calcBrokerage_eq_ite t r _ hF, if_pos (Or.inl (by rw [hm]; rfl)), hm]
  rfl

/-- Witness for C7: a trade with symbol `"gold"` matches the schedule
entry keyed `"GOLD"`. -/
theorem calcBrokerage_case_insensitive_witness :
    buildMcxMap ([] ++ [sGold]) (upperStr tGold.Script) = some sGold
    ∧ calcBrokerage tGold 3000 (buildMcxMap ([] ++ [sGold])) =
        (parseNum tGold.Qty / sGold.lotQty) * sGold.rate :=
  calcBrokerage_case_insensitive tGold 3000 [] sGold (by decide) (by decide)

/-- C9. The divisor of the lot-based branch (the configured lot size, or
the default 1 when no entry exists) is strictly positive — in particular
nonzero — whenever every configured lot size is positive, and in the
lot-based branch `calcBrokerage` indeed divides the quantity by it. -/
theorem lotDivisor_pos (scripts : List McxScript) (t : Trade) (r : ℚ)
    (hpos : ∀ s ∈ scripts, 0 < s.lotQty) :
    0 < lotQtyOf (buildMcxMap scripts (upperStr t.Script))
    ∧ lotQtyOf (buildMcxMap scripts (upperStr t.Script)) ≠ 0
    ∧ (t.Type' ≠ "FORWARD" →
        ((buildMcxMap scripts (upperStr t.Script)).isSome ∨ t.Exchange = "MCX") →
        calcBrokerage t r (buildMcxMap scripts) =
          (parseNum t.Qty / lotQtyOf (buildMcxMap scripts (upperStr t.Script))) *
            rateOf (buildMcxMap scripts (upperStr t.Script))) := by
  have hlt : 0 < lotQtyOf (buildMcxMap scripts (upperStr t.Script)) := by
    rcases hm : buildMcxMap scripts (upperStr t.Script) with _ | s
    · simp [lotQtyOf]
    · simpa [lotQtyOf] using hpos s (buildMcxMap_mem scripts _ s hm)
  exact ⟨hlt, hlt.ne', fun hF hsel => by
    rw [calcBrokerage_eq_ite t r _ hF, if_pos hsel]⟩

/-- Witness for C9: with the GOLD schedule the divisor is positive and
the lot-based branch is the quantity divided by it times the rate. -/
theorem lotDivisor_pos_witness :
    0 < lotQtyOf (buildMcxMap [sGold] (upperStr tGold.Script))
    ∧ calcBrokerage tGold 3000 (buildMcxMap [sGold]) =
        (parseNum tGold.Qty / lotQtyOf (buildMcxMap [sGold] (upperStr tGold.Script))) *
          rateOf (buildMcxMap [sGold] (upperStr tGold.Script)) := by
  have h := lotDivisor_pos [sGold] tGold 3000
    (by
      intro s hs
      rw [List.mem_singleton] at hs
      subst hs
      norm_num [sGold])
  exact ⟨h.1, h.2.2 (by decide) (Or.inl (by decide))⟩

/-- Counterexample for C10 as stated: on an MCX trade with no schedule
entry the first definition charges the default lot price 400 while the
second charges the flat price 150. -/
theorem calcBrokerage_two_defs_counterexample :
    calcBrokerage tMcx10 3000 mEmpty = 400
    ∧ calcBrokerage2 tMcx10 3000 mEmpty = 150
    ∧ calcBrokerage tMcx10 3000 mEmpty ≠ calcBrokerage2 tMcx10 3000 mEmpty := by
  have h1 : calcBrokerage tMcx10 3000 mEmpty = 400 := by
    norm_num +decide [calcBrokerage, tMcx10, mEmpty, parseNum, upperStr, lotQtyOf, rateOf]
  have h2 : calcBrokerage2 tMcx10 3000 mEmpty = 150 := by
    norm_num +decide [calcBrokerage2, tMcx10, mEmpty, parseNum, upperStr]
  refine ⟨h1, h2, ?_⟩
  rw [h1, h2]
  norm_num

/-- C10 (amended). The two definitions of `calcBrokerage` agree on every
trade for which a schedule entry for the uppercased symbol exists if and
only if the exchange is `"MCX"`; they differ in general. -/
theorem calcBrokerage_two_defs_agree (t : Trade) (r : ℚ)
    (m : String → Option McxScript)
    (h : (m (upperStr t.Script)).isSome ↔ t.Exchange = "MCX") :
    calcBrokerage t r m = calcBrokerage2 t r m := by
  by_cases hF : t.Type' = "FORWARD"
  · simp [calcBrokerage, calcBrokerage2, hF]
  · rw [calcBrokerage_eq_ite t r m hF]
    rcases hm : m (upperStr t.Script) with _ | s
    · have hx : ¬ t.Exchange = "MCX" := by
        rw [← h, hm]
        simp
      rw [if_neg (by simp [hm, hx])]
      simp [calcBrokerage2, hF, hm]
    · have hx : t.Exchange = "MCX" := h.mp (by rw [hm]; rfl)
      rw [if_pos (Or.inr hx)]
      simp [calcBrokerage2, hF, hm, hx, lotQtyOf, rateOf]

/-- Witness for C10 (amended): a gold trade with a matching entry on MCX
is priced identically by the two definitions. -/
theorem calcBrokerage_two_defs_agree_witness :
    calcBrokerage tGold 3000 (buildMcxMap [sGold]) =
      calcBrokerage2 tGold 3000 (buildMcxMap [sGold]) :=
  calcBrokerage_two_defs_agree tGold 3000 (buildMcxMap [sGold]) (by decide)

/-- A trade with an empty symbol and no parseable numeric fields. -/
def tUnknown : Trade :=
  { Action := "BUY", Qty := none, Vol := none, Script := "",
    Type' := "NORMAL", Exchange := "NSE" }

/-- `updateGroup` never changes the group's script. -/
theorem updateGroup_script (g : RawGroup) (t : Trade) :
    (updateGroup g t).script = g.script := by
  by_cases hA : t.Action = "BUY" <;> simp [updateGroup, hA]

/-- The keys of the association list after inserting a trade: unchanged
when the key is present, appended at the end otherwise. -/
theorem addToGroups_fst (gs : List (String × RawGroup)) (key : String) (t : Trade) :
    (addToGroups gs key t).map Prod.fst =
      if key ∈ gs.map Prod.fst then gs.map Prod.fst
      else gs.map Prod.fst ++ [key] := by
  induction gs with
  | nil => simp [addToGroups]
  | cons p rest ih =>
    obtain ⟨k, g⟩ := p
    by_cases hk : k = key
    · subst hk
      simp [addToGroups]
    · simp only [addToGroups, if_neg hk, List.map_cons, ih]
      by_cases h2 : key ∈ rest.map Prod.fst
      · rw [if_pos h2, if_pos (List.mem_cons_of_mem k h2)]
      · rw [if_neg h2, if_neg (by
          intro hc
          rcases List.mem_cons.mp hc with h3 | h3
          · exact hk h3.symm
          · exact h2 h3)]
        rfl

/-- Every pair in the association list built by `addToGroups` has its
group's script equal to its key, provided the input list does. -/
theorem addToGroups_snd_script :
    ∀ (gs : List (String × RawGroup)) (key : String) (t : Trade),
      (∀ p ∈ gs, (p : String × RawGroup).2.script = p.1) →
      ∀ p ∈ addToGroups gs key t, p.2.script = p.1 := by
  intro gs
  induction gs with
  | nil =>
    intro key t _ p hp
    simp only [addToGroups, List.mem_singleton] at hp
    subst hp
    exact updateGroup_script _ t
  | cons q rest ih =>
    obtain ⟨k, g⟩ := q
    intro key t h p hp
    simp only [addToGroups] at hp
    by_cases hk : k = key
    · rw [if_pos hk] at hp
      rcases List.mem_cons.mp hp with h1 | h1
      · subst h1
        exact (updateGroup_script g t).trans (h (k, g) (List.mem_cons_self _ _))
      · exact h p (List.mem_cons_of_mem _ h1)
    · rw [if_neg hk] at hp
      rcases List.mem_cons.mp hp with h1 | h1
      · subst h1
        exact h (k, g) (List.mem_cons_self _ _)
      · exact ih key t (fun q hq => h q (List.mem_cons_of_mem _ hq)) p h1

/-- The grouping fold preserves the script-equals-key invariant. -/
theorem buildGroups_snd_script (trades : List Trade) :
    ∀ p ∈ buildGroups trades, (p : String × RawGroup).2.script = p.1 := by
  suffices h : ∀ (ts : List Trade) (gs : List (String × RawGroup)),
      (∀ p ∈ gs, (p : String × RawGroup).2.script = p.1) →
      ∀ p ∈ ts.foldl (fun gs t => addToGroups gs (groupKey t) t) gs,
        p.2.script = p.1 by
    exact h trades [] (by simp)
  intro ts
  induction ts with
  | nil => exact fun gs h p hp => h p hp
  | cons t ts ih =>
    intro gs h p hp
    simp only [List.foldl_cons] at hp
    exact ih _ (addToGroups_snd_script _ _ _ h) p hp

/-- The keys of `buildGroups` are the first-seen keys, for any start. -/
theorem buildGroups_fst_aux :
    ∀ (ts : List Trade) (gs : List (String × RawGroup)),
      (ts.foldl (fun gs t => addToGroups gs (groupKey t) t) gs).map Prod.fst =
        ts.foldl (fun acc t => if groupKey t ∈ acc then acc else acc ++ [groupKey t])
          (gs.map Prod.fst) := by
  intro ts
  induction ts with
  | nil => intro gs; rfl
  | cons t ts ih =>
    intro gs
    simp only [List.foldl_cons]
    rw [ih (addToGroups gs (groupKey t) t), addToGroups_fst]

/-- The keys of `buildGroups` are the first-seen group keys in order. -/
theorem buildGroups_fst (trades : List Trade) :
    (buildGroups trades).map Prod.fst = firstSeenKeys trades := by
  rw [firstSeenKeys]
  simpa using buildGroups_fst_aux trades []

/-- Every first-seen key is the group key of some input trade. -/
theorem firstSeenKeys_mem_aux :
    ∀ (ts : List Trade) (acc : List String) (k : String),
      k ∈ ts.foldl
        (fun acc t => if groupKey t ∈ acc then acc else acc ++ [groupKey t]) acc →
      k ∈ acc ∨ ∃ t ∈ ts, k = groupKey t := by
  intro ts
  induction ts with
  | nil => exact fun acc k hk => Or.inl hk
  | cons t ts ih =>
    intro acc k hk
    simp only [List.foldl_cons] at hk
    rcases ih _ k hk with h1 | h1
    · by_cases hmem : groupKey t ∈ acc
      · rw [if_pos hmem] at h1
        exact Or.inl h1
      · rw [if_neg hmem] at h1
        rcases List.mem_append.mp h1 with h2 | h2
        · exact Or.inl h2
        · exact Or.inr ⟨t, List.mem_cons_self _ _, List.mem_singleton.mp h2⟩
    · obtain ⟨u, hu, hk'⟩ := h1
      exact Or.inr ⟨u, List.mem_cons_of_mem _ hu, hk'⟩

/-- If no trade has an array-index-like group key, no key of the built
groups object is array-index-like. -/
theorem buildGroups_no_index (trades : List Trade)
    (h : ∀ t ∈ trades, isArrayIndexKey (groupKey t) = false) :
    ∀ p ∈ buildGroups trades,
      isArrayIndexKey (p : String × RawGroup).1 = false := by
  intro p hp
  have hk : p.1 ∈ (buildGroups trades).map Prod.fst := List.mem_map_of_mem _ hp
  rw [buildGroups_fst] at hk
  simp only [firstSeenKeys] at hk
  rcases firstSeenKeys_mem_aux trades [] p.1 hk with h1 | h1
  · simp at h1
  · obtain ⟨t, ht, hk'⟩ := h1
    rw [hk']
    exact h t ht

/-- With no array-index-like key, `Object.values` enumeration is pure
creation order. -/
theorem objectValues_no_index (gs : List (String × RawGroup))
    (h : ∀ p ∈ gs, isArrayIndexKey (p : String × RawGroup).1 = false) :
    objectValues gs = gs.map Prod.snd := by
  have h1 : gs.filter (fun p => isArrayIndexKey p.1) = [] :=
    List.filter_eq_nil_iff.mpr (fun p hp => by simp [h p hp])
  have h2 : gs.filter (fun p => !isArrayIndexKey p.1) = gs :=
    List.filter_eq_self.mpr (fun p hp => by simp [h p hp])
  rw [objectValues, h1, h2]
  rfl

/-- A trade whose symbol is the digit-only script `"10"`. -/
def t10 : Trade :=
  { Action := "BUY", Qty := none, Vol := none, Script := "10",
    Type' := "NORMAL", Exchange := "NSE" }

/-- A trade whose symbol is the digit-only script `"2"`. -/
def t2 : Trade :=
  { Action := "SELL", Qty := none, Vol := none, Script := "2",
    Type' := "NORMAL", Exchange := "NSE" }

/-- Counterexample for C5 as stated: for the digit-only symbols `"10"`
then `"2"` (reachable, since the entry field admits `[A-Z0-9]`),
`Object.values` enumerates the `"2"` group first — ascending numeric
key order — so the report is not in first-seen-symbol order. -/
theorem buildReport_order_counterexample :
    (buildReport [t10, t2] 3000 mEmpty).map ReportGroup.script = ["2", "10"]
    ∧ firstSeenKeys [t10, t2] = ["10", "2"]
    ∧ (buildReport [t10, t2] 3000 mEmpty).map ReportGroup.script
        ≠ firstSeenKeys [t10, t2] := by
  refine ⟨rfl, rfl, ?_⟩
  decide

/-- C5 (amended). Provided no trade's group key is an array-index-like
string (a digit-only canonical integer below 2^32 − 1), the report
groups are in first-seen-symbol order among the input trades: mapping
each group to its script gives exactly the first occurrences of the
trades' group keys, in input order. -/
theorem buildReport_order_amended (trades : List Trade) (r : ℚ)
    (m : String → Option McxScript)
    (h : ∀ t ∈ trades, isArrayIndexKey (groupKey t) = false) :
    (buildReport trades r m).map ReportGroup.script = firstSeenKeys trades := by
  have hov : objectValues (buildGroups trades) = (buildGroups trades).map Prod.snd :=
    objectValues_no_index _ (buildGroups_no_index trades h)
  have h1 : (buildReport trades r m).map ReportGroup.script
      = (buildGroups trades).map Prod.fst := by
    simp only [buildReport, hov, List.map_map]
    exact List.map_congr_left (fun p hp => buildGroups_snd_script trades p hp)
  rw [h1]
  exact buildGroups_fst trades

/-- Witness for C5 (amended): two alphabetic-symbol trades keep
first-seen order. -/
theorem buildReport_order_amended_witness :
    (buildReport [tNse, tGold] 3000 mEmpty).map ReportGroup.script
      = firstSeenKeys [tNse, tGold] :=
  buildReport_order_amended [tNse, tGold] 3000 mEmpty (by decide)

/-- Folding `+ f x` over a list sums the mapped values. -/
theorem foldl_add_eq {α : Type} (f : α → ℚ) :
    ∀ (l : List α) (a : ℚ), l.foldl (fun s x => s + f x) a = a + (l.map f).sum := by
  intro l
  induction l with
  | nil => intro a; simp
  | cons x xs ih => intro a; simp [ih, add_assoc]

/-- Sums of pointwise differences split. -/
theorem sum_map_sub (f g : ReportGroup → ℚ) (l : List ReportGroup) :
    (l.map fun x => f x - g x).sum = (l.map f).sum - (l.map g).sum := by
  induction l with
  | nil => simp
  | cons x xs ih =>
    simp only [List.map_cons, List.sum_cons, ih]
    ring

/-- C6. Every report group satisfies total brokerage = buy + sell
brokerage, gross = sell volume − buy volume, net = gross − total
brokerage; and the grand-total folds satisfy sum of group gross =
total gross and total net = total gross − total brokerage. -/
theorem report_identities (trades : List Trade) (r : ℚ)
    (m : String → Option McxScript) (g : ReportGroup)
    (hg : g ∈ buildReport trades r m) :
    (g.totalBrk = g.buyBrk + g.sellBrk ∧ g.gross = g.sellVol - g.buyVol
      ∧ g.net = g.gross - g.totalBrk)
    ∧ totalGross (buildReport trades r m)
        = ((buildReport trades r m).map ReportGroup.gross).sum
    ∧ totalNet (buildReport trades r m)
        = totalGross (buildReport trades r m) - totalBrk (buildReport trades r m) := by
  have hfields : ∀ g' ∈ buildReport trades r m,
      g'.totalBrk = g'.buyBrk + g'.sellBrk ∧ g'.gross = g'.sellVol - g'.buyVol
        ∧ g'.net = g'.gross - g'.totalBrk := by
    intro g' hg'
    simp only [buildReport, List.mem_map] at hg'
    obtain ⟨p, hp, rfl⟩ := hg'
    exact ⟨rfl, rfl, rfl⟩
  refine ⟨hfields g hg, ?_, ?_⟩
  · rw [totalGross]
    rw [foldl_add_eq ReportGroup.gross _ 0, zero_add]
  · rw [totalNet, totalGross, totalBrk]
    rw [foldl_add_eq ReportGroup.net _ 0, foldl_add_eq ReportGroup.gross _ 0,
      foldl_add_eq ReportGroup.totalBrk _ 0]
    simp only [zero_add]
    have hmap : (buildReport trades r m).map ReportGroup.net
        = (buildReport trades r m).map (fun g' => g'.gross - g'.totalBrk) :=
      List.map_congr_left (fun g' hg' => (hfields g' hg').2.2)
    rw [hmap, sum_map_sub]

/-- The report group of the single NSE trade `tNse` at flat rate 3000. -/
def g1 : ReportGroup :=
  { script := "PFC", exchange := "NSE", buys := [tNse], sells := [],
    buyVol := 500000, sellVol := 0, buyBrk := 150, sellBrk := 0,
    totalBrk := 150, gross := -500000, net := -500150 }

/-- Witness for C6: the identities instantiated on a one-trade report. -/
theorem report_identities_witness :
    (g1.totalBrk = g1.buyBrk + g1.sellBrk ∧ g1.gross = g1.sellVol - g1.buyVol
      ∧ g1.net = g1.gross - g1.totalBrk)
    ∧ totalGross (buildReport [tNse] 3000 mEmpty)
        = ((buildReport [tNse] 3000 mEmpty).map ReportGroup.gross).sum
    ∧ totalNet (buildReport [tNse] 3000 mEmpty)
        = totalGross (buildReport [tNse] 3000 mEmpty)
            - totalBrk (buildReport [tNse] 3000 mEmpty) :=
  report_identities [tNse] 3000 mEmpty g1 (by
    have h : buildReport [tNse] 3000 mEmpty = [g1] := by
      norm_num +decide [buildReport, buildGroups, addToGroups, updateGroup, newGroup,
        objectValues, sortNumeric, isArrayIndexKey, strToNat,
        groupKey, finishGroup, calcBrokerage, parseNum, upperStr, mEmpty, tNse, g1]
    rw [h]
    exact List.mem_singleton.mpr rfl)

/-- C8. The engine absorbs degenerate input without error: the empty
trade list yields the empty report, a trade with missing or unparseable
quantity and volume has brokerage 0 and volume contribution 0, and a
trade with an empty symbol is grouped under `"UNKNOWN"`. -/
theorem engine_no_error (r : ℚ) (m : String → Option McxScript) (t : Trade) :
    buildReport [] r m = []
    ∧ (t.Qty = none → t.Vol = none → calcBrokerage t r m = 0)
    ∧ (t.Vol = none → parseNum t.Vol = 0)
    ∧ (t.Script = "" → (buildReport [t] r m).map ReportGroup.script = ["UNKNOWN"]) := by
  refine ⟨rfl, fun hq hv => ?_, fun hv => by rw [hv]; rfl, fun hS => ?_⟩
  · simp [calcBrokerage, hq, hv, parseNum]
  · have hkey : groupKey t = "UNKNOWN" := by
      have h0 : upperStr "" = "" := rfl
      simp [groupKey, hS, h0]
    have h1 : buildReport [t] r m =
        (objectValues [(groupKey t, updateGroup (newGroup (groupKey t) t) t)]).map
          (fun g => finishGroup r m g) := rfl
    rw [h1, hkey]
    show [(updateGroup (newGroup "UNKNOWN" t) t).script] = ["UNKNOWN"]
    rw [updateGroup_script]
    rfl

/-- Witness for C8: the degenerate cases at concrete inputs. -/
theorem engine_no_error_witness :
    buildReport [] 3000 mEmpty = []
    ∧ calcBrokerage tUnknown 3000 mEmpty = 0
    ∧ parseNum tUnknown.Vol = 0
    ∧ (buildReport [tUnknown] 3000 mEmpty).map ReportGroup.script = ["UNKNOWN"] :=
  ⟨(engine_no_error 3000 mEmpty tUnknown).1,
    (engine_no_error 3000 mEmpty tUnknown).2.1 rfl rfl,
    (engine_no_error 3000 mEmpty tUnknown).2.2.1 rfl,
    (engine_no_error 3000 mEmpty tUnknown).2.2.2 rfl⟩

end TradeSummary
